import Mathlib

/-!
Verification development for the tensor-column storage engine of
`text_extensions_for_pandas` (`array/tensor.py`).

The Python code stores a column of equal-shape tensors as a single numpy
`ndarray` whose first axis is the row axis.  We embed that model shallowly:

* `Val` is a scalar cell: an exact number or the floating NaN sentinel
  (`np.nan`); `Val.isNan` embeds `np.isnan` on one cell.
* `NdVal` is the *value* of an ndarray: its shape together with its data
  laid out flat in row-major (C) order, exactly as numpy stores a
  C-contiguous array.
* Aliasing is observable in numpy (basic slices are views), so the runtime
  state is made explicit: a `Heap` is the list of live backing buffers and
  an `NdHandle` is a C-contiguous view into one of them (buffer id, element
  offset, shape).  Operations that allocate return an extended heap;
  operations that produce numpy views return handles into the same buffer;
  in-place assignment rewrites one buffer of the heap.
* Fallible operations return `Except Err`, one constructor per exception
  kind raised by numpy / pandas / the source file.
-/

namespace TensorSpec

/-- A scalar cell of a tensor: the floating NaN sentinel or an exact number.
The claims under study never exercise rounding, so numbers are exact. -/
inductive Val where
  | nan : Val
  | num : Int → Val
deriving DecidableEq

/-- Embeds `np.isnan` on one cell. -/
def Val.isNan : Val → Bool
  | .nan => true
  | .num _ => false

/-- Embeds IEEE addition as used by `np.sum` / `operator.add`:
NaN propagates, numbers add exactly. -/
def Val.add : Val → Val → Val
  | .num a, .num b => .num (a + b)
  | _, _ => .nan

/-- The value of a numpy ndarray: shape `[s1,...,sk]` and the cells in
row-major (C contiguous) order, so `data.length = shape.prod`. -/
structure NdVal where
  shape : List Nat
  data : List Val
deriving DecidableEq

/-- A boolean ndarray value (result of `np.isnan` reductions). -/
structure BoolNd where
  shape : List Nat
  data : List Bool
deriving DecidableEq

/-- `numC` consecutive chunks of `sz` cells of a flat buffer: the rows of
axis-(-1) of an array of shape `[..., sz]` with `numC = prod of the other
dims`, in C order. -/
def chunksOf (numC sz : Nat) (l : List Val) : List (List Val) :=
  (List.range numC).map (fun i => (l.drop (i * sz)).take sz)

/-- The runtime heap: every live numpy backing buffer, flat in C order. -/
abbrev Heap := List (List Val)

/-- A C-contiguous view into one heap buffer: `buf` identifies the backing
buffer (`ndarray.base`), `off` the element offset of the view's first cell,
`shape` the view's shape.  Both `TensorArray._tensor` and the ndarray inside
a `TensorElement` are such views. -/
structure NdHandle where
  buf : Nat
  off : Nat
  shape : List Nat
deriving DecidableEq

/-- Reading a view out of the heap yields its ndarray value. -/
def readH (h : Heap) (a : NdHandle) : NdVal :=
  ⟨a.shape, ((h.getD a.buf []).drop a.off).take a.shape.prod⟩

/-- Allocating a fresh buffer for an ndarray value; returns the extended
heap and a handle onto the new buffer. -/
def alloc (h : Heap) (v : NdVal) : Heap × NdHandle :=
  (h ++ [v.data], ⟨h.length, 0, v.shape⟩)

/-- A well-formed live view: its buffer exists, it fits inside that buffer,
and it has at least one axis (every `_tensor` and row tensor does). -/
def Wf (h : Heap) (a : NdHandle) : Prop :=
  a.buf < h.length ∧
  a.off + a.shape.prod ≤ (h.getD a.buf []).length ∧
  a.shape ≠ []

instance (h : Heap) (a : NdHandle) : Decidable (Wf h a) := by
  unfold Wf; infer_instance

/-- The flat cells of row `i` of an ndarray value whose first axis is the
row axis (`shape = n :: rowShape`). -/
def rowSlice (a : NdVal) (i : Nat) : List Val :=
  (a.data.drop (i * a.shape.tail.prod)).take a.shape.tail.prod

/-- The exception kinds raised by the source and the libraries it calls. -/
inductive Err where
  | typeMismatch
  | shapeMismatch
  | indexError
  | valueError
  | notImplemented
deriving DecidableEq

deriving instance DecidableEq for Except

/-- Python index resolution: a negative index counts from the end. -/
def resolveIdx (n : Nat) (i : Int) : Nat :=
  (if i < 0 then (n : Int) + i else i).toNat

/-- The index forms accepted by `__getitem__` / `__setitem__` after
`check_array_indexer`: a single integer, a step-1 slice `l:r` with
non-negative bounds, an integer array (fancy indexing), or a boolean
mask. -/
inductive Key where
  | int : Int → Key
  | slice : Nat → Nat → Key
  | ints : List Int → Key
  | bools : List Bool → Key
deriving DecidableEq

/-- Which row positions a key selects on a column of `n` rows, in order,
with the bounds checks numpy / `check_array_indexer` perform: integer and
fancy indices must lie in `[-n, n)` (negatives wrap), slices clamp without
error, a boolean mask must have length exactly `n`. -/
def resolveKey (n : Nat) : Key → Except Err (List Nat)
  | .int i =>
      if -(n : Int) ≤ i ∧ i < (n : Int) then .ok [resolveIdx n i]
      else .error Err.indexError
  | .slice l r => .ok (List.range' (min l n) (min r n - min l n))
  | .ints is =>
      if is.all (fun i => decide (-(n : Int) ≤ i) && decide (i < (n : Int))) then
        .ok (is.map (resolveIdx n))
      else .error Err.indexError
  | .bools bs =>
      if bs.length = n then .ok ((List.range n).filter (fun j => bs.getD j false))
      else .error Err.indexError

/-- One element of the sequence handed to `TensorArray.__init__`: a bare
numeric scalar, a per-row tensor (ndarray value), or a `TensorElement`. -/
inductive SeqItem where
  | scalar : Val → SeqItem
  | nd : NdVal → SeqItem
  | element : NdVal → SeqItem
deriving DecidableEq

/-- The per-item coercion in `__init__`:
`np.asarray(v) if isinstance(v, TensorElement) else np.array([v]) if
np.isscalar(v) else v`. -/
def coerceItem : SeqItem → NdVal
  | .element e => e
  | .scalar v => ⟨[1], [v]⟩
  | .nd w => w

/-- `np.stack(values, axis=0)`: all inputs must share one shape, the result
gains a leading axis; a shape disagreement raises (numpy's ValueError, the
spec's ShapeMismatch). -/
def np_stack (vs : List NdVal) : Except Err NdVal :=
  match vs with
  | [] => .error Err.valueError
  | v :: rest =>
      if rest.all (fun w => w.shape = v.shape) then
        .ok ⟨vs.length :: v.shape, (vs.map (fun w => w.data)).flatten⟩
      else .error Err.shapeMismatch

/-- `TensorArray.__init__` on a `Sequence` input: an empty sequence becomes
`np.array([])` (shape `[0]`), otherwise each element is coerced and the
results are stacked along a new leading axis.  The produced ndarray value
is then adopted as the column's buffer. -/
def TensorArray.initFromSeq (vals : List SeqItem) : Except Err NdVal :=
  if vals.length = 0 then .ok ⟨[0], []⟩
  else np_stack (vals.map coerceItem)

/-- Result of `__getitem__`: an integer key yields a `TensorElement` (row
view), any other key yields a `TensorArray`. -/
inductive GetResult where
  | elem : NdHandle → GetResult
  | arr : NdHandle → GetResult
deriving DecidableEq

/-- `TensorArray.__getitem__`.  An integer key takes the numpy view
`self._tensor[item]` of one row and wraps it as a `TensorElement` — no
allocation.  A step-1 slice is numpy basic indexing: a C-contiguous view
into the *same* buffer, adopted as-is by `TensorArray(...)` (its
`make_contiguous` pass finds it already contiguous).  Fancy indexing and
boolean masks are numpy advanced indexing: they gather the selected rows
into a *new* buffer. -/
def TensorArray.getitem (h : Heap) (col : NdHandle) (k : Key) :
    Except Err (Heap × GetResult) :=
  let n := col.shape.headD 0
  let rowsz := col.shape.tail.prod
  match k with
  | .int i =>
      if -(n : Int) ≤ i ∧ i < (n : Int) then
        .ok (h, .elem ⟨col.buf, col.off + resolveIdx n i * rowsz, col.shape.tail⟩)
      else .error Err.indexError
  | .slice l r =>
      .ok (h, .arr ⟨col.buf, col.off + min l n * rowsz,
            (min r n - min l n) :: col.shape.tail⟩)
  | .ints is =>
      match resolveKey n (.ints is) with
      | .error e => .error e
      | .ok sel =>
          let src := readH h col
          let p := alloc h ⟨sel.length :: col.shape.tail,
                            (sel.map (rowSlice src)).flatten⟩
          .ok (p.1, .arr p.2)
  | .bools bs =>
      match resolveKey n (.bools bs) with
      | .error e => .error e
      | .ok sel =>
          let src := readH h col
          let p := alloc h ⟨sel.length :: col.shape.tail,
                            (sel.map (rowSlice src)).flatten⟩
          .ok (p.1, .arr p.2)

/-- The last row-write of `pairs` (row position, row cells) covering flat
buffer position `p`: the denotation of numpy's in-order row assignment
loop, where a later write to the same cell wins. -/
def lastWrite (off rowsz : Nat) (pairs : List (Nat × List Val)) (p : Nat) :
    Option Val :=
  pairs.reverse.findSome? (fun q =>
    if off + q.1 * rowsz ≤ p ∧ p < off + q.1 * rowsz + rowsz then
      some (q.2.getD (p - (off + q.1 * rowsz)) Val.nan)
    else none)

/-- The buffer after writing the given rows of a view (`off`, row size
`rowsz`) in order: each cell takes the last write covering it, cells never
written keep their old value.  This is the value semantics of
`self._tensor[key] = value` for the key forms above. -/
def assignRows (b : List Val) (off rowsz : Nat) (pairs : List (Nat × List Val)) :
    List Val :=
  (List.range b.length).map (fun p =>
    (lastWrite off rowsz pairs p).getD (b.getD p Val.nan))

/-- The value operand of `__setitem__` after its coercions: Python `None`,
an empty sequence, an ndarray / coerced tensor value, or a bare scalar. -/
inductive SetVal where
  | pyNone : SetVal
  | emptySeq : SetVal
  | nd : NdVal → SetVal
  | scalar : Val → SetVal
deriving DecidableEq

/-- `TensorArray.__setitem__`.  The key is resolved (with the indexer
validation) to the selected row positions.  A `None` or empty-sequence
value takes the source's dedicated branch
`nan_fill = np.full_like(self._tensor[key], np.nan); self._tensor[key] = nan_fill`:
every selected row is overwritten with NaN.  Otherwise
`self._tensor[key] = value` assigns into the buffer in place, broadcasting
a scalar or a single row across the selected rows, or distributing a
stack of `len(sel)` rows row-by-row; a non-broadcastable value raises. -/
def TensorArray.setitem (h : Heap) (col : NdHandle) (k : Key) (v : SetVal) :
    Except Err Heap :=
  let n := col.shape.headD 0
  let rowsz := col.shape.tail.prod
  match resolveKey n k with
  | .error e => .error e
  | .ok sel =>
      let buf := h.getD col.buf []
      match v with
      | .pyNone =>
          .ok (h.set col.buf (assignRows buf col.off rowsz
                (sel.map (fun i => (i, List.replicate rowsz Val.nan)))))
      | .emptySeq =>
          .ok (h.set col.buf (assignRows buf col.off rowsz
                (sel.map (fun i => (i, List.replicate rowsz Val.nan)))))
      | .scalar c =>
          .ok (h.set col.buf (assignRows buf col.off rowsz
                (sel.map (fun i => (i, List.replicate rowsz c)))))
      | .nd w =>
          if w.shape = col.shape.tail then
            .ok (h.set col.buf (assignRows buf col.off rowsz
                  (sel.map (fun i => (i, w.data)))))
          else if w.shape = sel.length :: col.shape.tail then
            .ok (h.set col.buf (assignRows buf col.off rowsz
                  (sel.zip (chunksOf sel.length rowsz w.data))))
          else .error Err.valueError

/-- `pandas.core.indexers.validate_indices`: on a non-empty index array,
a minimum below `-1` raises ValueError and a maximum at or beyond `n`
raises IndexError; `-1` is the only admissible negative. -/
def validate_indices (idxs : List Int) (n : Nat) : Except Err Unit :=
  if idxs ≠ [] ∧ idxs.any (fun i => decide (i < -1)) then .error Err.valueError
  else if idxs ≠ [] ∧ idxs.any (fun i => decide ((n : Int) ≤ i)) then
    .error Err.indexError
  else .ok ()

/-- `TensorArray.take`.  With `allow_fill` the indices are validated first
(`validate_indices`), a result of shape `[len(indices), rowShape...]` is
pre-filled with the fill value (NaN when none is supplied) and every
non-negative index copies its source row into its slot — rendered here
slot-by-slot.  Without `allow_fill` it is `self._tensor.take(indices,
axis=0)`: a gather that accepts any index in `[-n, n)` (negatives wrap
Python-style) and raises IndexError outside that range.  Both modes
allocate a fresh buffer. -/
def TensorArray.take (h : Heap) (col : NdHandle) (idxs : List Int)
    (allow_fill : Bool) (fill_value : Option Val) :
    Except Err (Heap × NdHandle) :=
  let n := col.shape.headD 0
  let rowsz := col.shape.tail.prod
  let src := readH h col
  if allow_fill then
    match validate_indices idxs n with
    | .error e => .error e
    | .ok _ =>
        let fill := fill_value.getD Val.nan
        .ok (alloc h ⟨idxs.length :: col.shape.tail,
              (idxs.map (fun idx =>
                if 0 ≤ idx then rowSlice src idx.toNat
                else List.replicate rowsz fill)).flatten⟩)
  else
    if idxs.all (fun i => decide (-(n : Int) ≤ i) && decide (i < (n : Int))) then
      .ok (alloc h ⟨idxs.length :: col.shape.tail,
            (idxs.map (fun i => rowSlice src (resolveIdx n i))).flatten⟩)
    else .error Err.indexError

/-- `TensorArray.copy`: `self._tensor.copy()` materialises the view into a
fresh buffer and the constructor adopts it. -/
def TensorArray.copy (h : Heap) (col : NdHandle) : Heap × NdHandle :=
  alloc h (readH h col)

/-- `TensorArray._concat_same_type`: `np.concatenate` of the members'
buffers along the row axis — all row shapes must agree — into a fresh
buffer. -/
def TensorArray._concat_same_type (h : Heap) (cols : List NdHandle) :
    Except Err (Heap × NdHandle) :=
  match cols with
  | [] => .error Err.valueError
  | c :: rest =>
      if rest.all (fun d => d.shape.tail = c.shape.tail) then
        .ok (alloc h ⟨(cols.map (fun d => d.shape.headD 0)).sum :: c.shape.tail,
              (cols.map (fun d => (readH h d).data)).flatten⟩)
      else .error Err.shapeMismatch

/-- `TensorArray.astype` restricted to a `TensorType` target dtype:
`TensorArray(self._tensor.copy() if copy else self._tensor)` — a fresh
buffer when `copy` is set, the very same buffer otherwise. -/
def TensorArray.astype (h : Heap) (col : NdHandle) (copy : Bool) :
    Heap × NdHandle :=
  if copy then alloc h (readH h col) else (h, col)

/-- `len(TensorArray)` = `len(self._tensor)` = extent of the first axis. -/
def TensorArray.len (col : NdHandle) : Nat :=
  col.shape.headD 0

/-- `np.all(np.isnan(a), axis=-1)` on an ndarray value: the *last* axis is
reduced, so the result has shape `a.shape.dropLast` — each size-`last`
chunk collapses to "are all its cells NaN". -/
def np_all_isnan_last (a : NdVal) : BoolNd :=
  ⟨a.shape.dropLast,
   (chunksOf a.shape.dropLast.prod (a.shape.getLastD 1) a.data).map
     (fun c => c.all Val.isNan)⟩

/-- `TensorArray.isna`: `np.all(np.isnan(self._tensor), axis=-1)`. -/
def TensorArray.isna (h : Heap) (col : NdHandle) : BoolNd :=
  np_all_isnan_last (readH h col)

/-- `np.sum(a, axis=0)` on an ndarray value of shape `n :: rowShape`:
cell `j` of the result is the sum over the `n` rows' cells `j`. -/
def np_sum_axis0 (a : NdVal) : NdVal :=
  ⟨a.shape.tail,
   (List.range a.shape.tail.prod).map (fun j =>
     ((List.range (a.shape.headD 0)).map (fun i =>
        a.data.getD (i * a.shape.tail.prod + j) Val.nan)).foldl Val.add
       (Val.num 0))⟩

/-- `TensorArray._reduce`: the name `sum` wraps `np.sum(self._tensor,
axis=0)` in `TensorArray(...)` — the sum tensor is *adopted as the new
buffer*, so the result's first axis is the first row-shape dimension (for a
one-axis column the numpy scalar re-enters the constructor through its
scalar branch as shape `[1,1]`).  Every other name raises
NotImplementedError. -/
def TensorArray._reduce (h : Heap) (col : NdHandle) (name : String) :
    Except Err (Heap × NdHandle) :=
  if name = "sum" then
    let s := np_sum_axis0 (readH h col)
    if col.shape.length ≤ 1 then
      .ok (alloc h ⟨[1, 1], [s.data.getD 0 Val.nan]⟩)
    else
      .ok (alloc h s)
  else .error Err.notImplemented

/-- The `other` operand of a synthesized binary operator: a `TensorArray`,
a `TensorElement`, a plain ndarray, or a bare scalar. -/
inductive Operand where
  | arr : NdHandle → Operand
  | elem : NdHandle → Operand
  | raw : NdVal → Operand
  | scalar : Val → Operand

/-- Which class the dispatcher synthesizes the method on (`cls`). -/
inductive ClsTag where
  | arr : ClsTag
  | elem : ClsTag
deriving DecidableEq

/-- An operator result wrapped by `cls(res)`: `TensorArray(res)` adopts the
result array, `TensorElement(res)` wraps it. -/
inductive Wrapped where
  | arr : NdHandle → Wrapped
  | elem : NdHandle → Wrapped
deriving DecidableEq

/-- Elementwise numpy binary op with broadcasting, on the shapes the column
code exercises: equal shapes combine cell by cell; when one shape is a
suffix of the other (this covers a 0-d scalar against anything, and a row
against a column of such rows) the smaller operand tiles cyclically through
the larger one's C-order cells, which is exactly numpy's broadcast layout
for suffix shapes; shapes not related that way raise. -/
def np_binop (op : Val → Val → Val) (a b : NdVal) : Except Err NdVal :=
  if a.shape = b.shape then .ok ⟨a.shape, List.zipWith op a.data b.data⟩
  else if b.shape.isSuffixOf a.shape then
    .ok ⟨a.shape, (List.range a.shape.prod).map (fun j =>
          op (a.data.getD j Val.nan) (b.data.getD (j % b.shape.prod) Val.nan))⟩
  else if a.shape.isSuffixOf b.shape then
    .ok ⟨b.shape, (List.range b.shape.prod).map (fun j =>
          op (a.data.getD (j % a.shape.prod) Val.nan) (b.data.getD j Val.nan))⟩
  else .error Err.valueError

/-- The `_binop` closure `TensorOpsMixin._create_method` installs on `cls`:
`lvalues = self._tensor`; `rvalues = other._tensor` when `other` is a
`TensorArray` or `TensorElement`, else `other` itself (a Python scalar
becomes a 0-d array inside numpy); `res = op(lvalues, rvalues)` allocates
the elementwise result; `cls(res)` wraps it — the same concrete class as
`self`.  Neither operand's buffer is touched. -/
def TensorOpsMixin._binop (cls : ClsTag) (op : Val → Val → Val) (h : Heap)
    (self : NdHandle) (other : Operand) : Except Err (Heap × Wrapped) :=
  let lvalues := readH h self
  let rvalues : NdVal :=
    match other with
    | .arr o => readH h o
    | .elem o => readH h o
    | .raw w => w
    | .scalar c => ⟨[], [c]⟩
  match np_binop op lvalues rvalues with
  | .error e => .error e
  | .ok res =>
      let p := alloc h res
      .ok (p.1, match cls with | .arr => .arr p.2 | .elem => .elem p.2)

/-- An `Except`-valued heap operation allocates freshly when every success
yields a handle onto a brand-new buffer appended to the old heap (hence
sharing no memory with any live column). -/
def FreshRes (h : Heap) : Except Err (Heap × NdHandle) → Prop
  | .error _ => True
  | .ok (h', r) => r.buf = h.length ∧ r.off = 0 ∧ ∃ d, h' = h ++ [d]

/-- Likewise for `__getitem__` results: every success is a `TensorArray`
whose handle sits at offset 0 of a brand-new buffer appended to the old
heap (numpy advanced indexing copies). -/
def FreshGet (h : Heap) : Except Err (Heap × GetResult) → Prop
  | .error _ => True
  | .ok (h', r) =>
      (∃ hd, r = .arr hd ∧ hd.buf = h.length ∧ hd.off = 0) ∧ ∃ d, h' = h ++ [d]

/-! ### Helper lemmas about buffers, views and the heap -/

theorem getD_append_lt {α : Type} (l l' : List α) (i : Nat) (d : α)
    (hi : i < l.length) : (l ++ l').getD i d = l.getD i d := by
  simp [List.getD_eq_getElem?_getD, List.getElem?_append_left hi]

theorem getD_append_len {α : Type} (l : List α) (x : α) (d : α) :
    (l ++ [x]).getD l.length d = x := by
  simp [List.getD_eq_getElem?_getD]

theorem getD_set_self {α : Type} (l : List α) (i : Nat) (x d : α)
    (hi : i < l.length) : (l.set i x).getD i d = x := by
  simp [List.getD_eq_getElem?_getD, List.getElem?_set_self, hi]

theorem getD_set_ne {α : Type} (l : List α) (i j : Nat) (x d : α)
    (hij : i ≠ j) : (l.set i x).getD j d = l.getD j d := by
  simp [List.getD_eq_getElem?_getD, List.getElem?_set_ne hij]

theorem getD_drop_add {α : Type} (l : List α) (k j : Nat) (d : α) :
    (l.drop k).getD j d = l.getD (k + j) d := by
  simp [List.getD_eq_getElem?_getD, List.getElem?_drop]

theorem getD_take_lt {α : Type} (l : List α) (k j : Nat) (d : α) (h : j < k) :
    (l.take k).getD j d = l.getD j d := by
  simp [List.getD_eq_getElem?_getD, List.getElem?_take, h]

theorem getD_range_map {α : Type} (n : Nat) (f : Nat → α) (p : Nat) (d : α)
    (hp : p < n) : ((List.range n).map f).getD p d = f p := by
  simp [List.getD_eq_getElem?_getD, List.getElem?_map, List.getElem?_range hp]

theorem getD_replicate_const {α : Type} (n m : Nat) (a : α) :
    (List.replicate n a).getD m a = a := by
  rw [List.getD_eq_getElem?_getD, List.getElem?_replicate]
  split <;> rfl

theorem length_readH (h : Heap) (a : NdHandle) (hwf : Wf h a) :
    (readH h a).data.length = a.shape.prod := by
  obtain ⟨-, h2, -⟩ := hwf
  simp only [readH, List.length_take, List.length_drop]
  omega

/-- A brand-new buffer never changes what an existing view reads. -/
theorem readH_append_one (h : Heap) (a : NdHandle) (d : List Val)
    (hb : a.buf < h.length) : readH (h ++ [d]) a = readH h a := by
  simp only [readH, getD_append_lt _ _ _ _ hb]

/-- Reading back a freshly allocated well-sized value gives that value. -/
theorem readH_alloc_self (h : Heap) (v : NdVal)
    (hlen : v.data.length = v.shape.prod) :
    readH (alloc h v).1 (alloc h v).2 = v := by
  simp only [readH, alloc, getD_append_len, List.drop_zero, ← hlen,
    List.take_length]

/-- Replacing one buffer never changes what a view of another buffer reads. -/
theorem readH_set_ne (h : Heap) (a : NdHandle) (i : Nat) (b : List Val)
    (hne : i ≠ a.buf) : readH (h.set i b) a = readH h a := by
  simp only [readH, getD_set_ne _ _ _ _ _ hne]

theorem assignRows_length (b : List Val) (off rowsz : Nat)
    (pairs : List (Nat × List Val)) :
    (assignRows b off rowsz pairs).length = b.length := by
  simp [assignRows]

/-- Every row of `n` positions a key resolves to is in range. -/
theorem resolveKey_lt (n : Nat) (k : Key) (sel : List Nat)
    (hk : resolveKey n k = .ok sel) : ∀ i ∈ sel, i < n := by
  intro i hi
  cases k with
  | int j =>
      simp only [resolveKey] at hk
      split at hk
      · rename_i hc
        cases hk
        simp only [List.mem_singleton] at hi
        subst hi
        simp only [resolveIdx]
        split <;> omega
      · cases hk
  | slice l r =>
      simp only [resolveKey] at hk
      cases hk
      have := List.mem_range'_1.mp hi
      omega
  | ints is =>
      simp only [resolveKey] at hk
      split at hk
      · rename_i hc
        cases hk
        obtain ⟨j, hj, rfl⟩ := List.mem_map.mp hi
        rw [List.all_eq_true] at hc
        have := hc j hj
        simp only [Bool.and_eq_true, decide_eq_true_eq] at this
        simp only [resolveIdx]
        split <;> omega
      · cases hk
  | bools bs =>
      simp only [resolveKey] at hk
      split at hk
      · cases hk
        have := List.mem_filter.mp hi
        exact List.mem_range.mp this.1
      · cases hk

/-- Every successful `__setitem__` rewrites exactly the column's own
buffer, leaving every other buffer of the heap untouched. -/
theorem setitem_ok_set (h : Heap) (col : NdHandle) (k : Key) (v : SetVal)
    (h'' : Heap) (hok : TensorArray.setitem h col k v = .ok h'') :
    ∃ nb, h'' = h.set col.buf nb := by
  simp only [TensorArray.setitem] at hok
  cases hr : resolveKey (col.shape.headD 0) k with
  | error e => rw [hr] at hok; cases hok
  | ok sel =>
      rw [hr] at hok
      cases v with
      | pyNone => cases hok; exact ⟨_, rfl⟩
      | emptySeq => cases hok; exact ⟨_, rfl⟩
      | scalar c => cases hok; exact ⟨_, rfl⟩
      | nd w =>
          dsimp only at hok
          split at hok
          · cases hok; exact ⟨_, rfl⟩
          · split at hok
            · cases hok; exact ⟨_, rfl⟩
            · cases hok

theorem shape_cons (s : List Nat) (hne : s ≠ []) : s = s.headD 0 :: s.tail := by
  cases s with
  | nil => exact absurd rfl hne
  | cons a t => rfl

theorem all_isNan_replicate (m : Nat) :
    (List.replicate m Val.nan).all Val.isNan = true := by
  rw [List.all_eq_true]
  intro x hx
  rw [List.eq_of_mem_replicate hx]
  rfl

theorem range_length_map_getD {α β : Type} (l : List α) (d : α) (f : α → β) :
    (List.range l.length).map (fun j => f (l.getD j d)) = l.map f := by
  apply List.ext_getElem
  · simp
  · intro i h1 h2
    simp only [List.getElem_map, List.getElem_range]
    congr 1
    rw [List.getD_eq_getElem?_getD, List.getElem?_eq_getElem (by simpa using h2)]
    rfl

/-- Extracting row `idx` out of the length-`n' * m` window of a buffer is
the same as reading `m` cells at the row's absolute offset. -/
theorem take_drop_row {α : Type} (b : List α) (off m n' idx : Nat)
    (hidx : idx < n') :
    (((b.drop off).take (n' * m)).drop (idx * m)).take m =
      (b.drop (off + idx * m)).take m := by
  have hmul : idx * m + m ≤ n' * m := by
    calc idx * m + m = (idx + 1) * m := by ring
    _ ≤ n' * m := Nat.mul_le_mul_right _ hidx
  rw [List.drop_take, List.take_take, Nat.min_eq_left (by omega),
    List.drop_drop]

/-- `np_stack` on a non-empty list, unfolded. -/
theorem np_stack_cons (v : NdVal) (rest : List NdVal) :
    np_stack (v :: rest) =
      if rest.all (fun w => w.shape = v.shape) then
        .ok ⟨(v :: rest).length :: v.shape,
             ((v :: rest).map (fun w => w.data)).flatten⟩
      else .error Err.shapeMismatch := rfl

theorem freshRes_ok_alloc (h : Heap) (v : NdVal) : FreshRes h (.ok (alloc h v)) := by
  unfold FreshRes
  exact ⟨rfl, rfl, v.data, rfl⟩

theorem freshRes_error (h : Heap) (e : Err) : FreshRes h (.error e) := by
  unfold FreshRes
  trivial

theorem freshGet_ok_alloc (h : Heap) (v : NdVal) :
    FreshGet h (.ok ((alloc h v).1, .arr (alloc h v).2)) := by
  unfold FreshGet
  exact ⟨⟨(alloc h v).2, rfl, rfl, rfl⟩, v.data, rfl⟩

theorem freshGet_error (h : Heap) (e : Err) : FreshGet h (.error e) := by
  unfold FreshGet
  trivial

/-! ### Claims -/

/-- C1, counterexample: the claim says slice-indexing returns a column
whose buffer shares no memory with the source, so that writing into a
column obtained by slicing cannot change the source.  On the two-row column
with buffer `[0, 1]` (row shape `[1]`), `__getitem__` with the slice `0:2`
returns a column whose handle points at the *same* buffer (a numpy view),
and assigning `[5]` to row `0` of that sliced column rewrites the shared
buffer, changing what the source column reads. -/
theorem C1_counterexample :
    TensorArray.getitem [[Val.num 0, Val.num 1]] ⟨0, 0, [2, 1]⟩ (Key.slice 0 2) =
      .ok ([[Val.num 0, Val.num 1]], .arr ⟨0, 0, [2, 1]⟩) ∧
    TensorArray.setitem [[Val.num 0, Val.num 1]] (⟨0, 0, [2, 1]⟩ : NdHandle)
      (Key.int 0) (SetVal.nd ⟨[1], [Val.num 5]⟩) = .ok [[Val.num 5, Val.num 1]] ∧
    readH [[Val.num 5, Val.num 1]] ⟨0, 0, [2, 1]⟩ ≠
      readH [[Val.num 0, Val.num 1]] ⟨0, 0, [2, 1]⟩ := by
  decide

/-- C1 (amended): `take`, `_concat_same_type`, `copy` and `astype` with
`copy=True` always return columns backed by a freshly allocated buffer
(sharing no memory with any live column), and the original heap is only
extended, never modified.  But `__getitem__` with a slice key returns a
column whose handle points into the source column's own buffer (a numpy
view, through which writes reach the source), and `astype` with
`copy=False` returns a column aliasing the source buffer outright.
`__getitem__` with an integer-array or boolean-mask key is numpy advanced
indexing: every successful result is a column at offset 0 of a freshly
appended buffer. -/
theorem C1_buffer_sharing (h : Heap) (col : NdHandle) (l r : Nat)
    (idxs : List Int) (af : Bool) (fv : Option Val) (cols : List NdHandle)
    (is : List Int) (bs : List Bool) :
    FreshRes h (TensorArray.take h col idxs af fv) ∧
    FreshRes h (TensorArray._concat_same_type h cols) ∧
    TensorArray.copy h col = (h ++ [(readH h col).data], ⟨h.length, 0, col.shape⟩) ∧
    TensorArray.astype h col true =
      (h ++ [(readH h col).data], ⟨h.length, 0, col.shape⟩) ∧
    TensorArray.astype h col false = (h, col) ∧
    FreshGet h (TensorArray.getitem h col (Key.ints is)) ∧
    FreshGet h (TensorArray.getitem h col (Key.bools bs)) ∧
    TensorArray.getitem h col (Key.slice l r) =
      .ok (h, .arr ⟨col.buf,
            col.off + min l (col.shape.headD 0) * col.shape.tail.prod,
            (min r (col.shape.headD 0) - min l (col.shape.headD 0)) ::
              col.shape.tail⟩) := by
  refine ⟨?_, ?_, rfl, rfl, rfl, ?_, ?_, rfl⟩
  · unfold TensorArray.take
    cases af
    · rw [if_neg Bool.false_ne_true]
      split
      · exact freshRes_ok_alloc ..
      · exact freshRes_error ..
    · rw [if_pos rfl]
      split
      · exact freshRes_error ..
      · exact freshRes_ok_alloc ..
  · unfold TensorArray._concat_same_type
    split
    · exact freshRes_error ..
    · split
      · exact freshRes_ok_alloc ..
      · exact freshRes_error ..
  · unfold TensorArray.getitem
    dsimp only
    split
    · exact freshGet_error ..
    · exact freshGet_ok_alloc ..
  · unfold TensorArray.getitem
    dsimp only
    split
    · exact freshGet_error ..
    · exact freshGet_ok_alloc ..

/-- C2: `isna` is `np.all(np.isnan(self._tensor), axis=-1)`, which
reduces only the *last* axis.  On the claim's own 1-D-row example it does
return the length-3 sequence `[false, true, false]`; but on a column of one
2×2 row `[[NaN, NaN], [1, 1]]` it returns the shape-`[1,2]` boolean array
`[[true, false]]` instead of the length-1 sequence `[false]` the claim (and
the pandas `ExtensionArray.isna` contract the method's docstring defers to)
requires, and on the empty column built from an empty sequence (buffer
shape `[0]`) it returns a 0-d scalar `True` instead of a length-0
sequence. -/
theorem C2_isna_last_axis_only :
    TensorArray.isna
        [[Val.num 1, Val.num 2, Val.nan, Val.nan, Val.num 3, Val.nan]]
        ⟨0, 0, [3, 2]⟩ = ⟨[3], [false, true, false]⟩ ∧
    TensorArray.initFromSeq
        [SeqItem.nd ⟨[2, 2], [Val.nan, Val.nan, Val.num 1, Val.num 1]⟩] =
      .ok ⟨[1, 2, 2], [Val.nan, Val.nan, Val.num 1, Val.num 1]⟩ ∧
    TensorArray.isna [[Val.nan, Val.nan, Val.num 1, Val.num 1]]
        ⟨0, 0, [1, 2, 2]⟩ = ⟨[1, 2], [true, false]⟩ ∧
    (⟨[1, 2], [true, false]⟩ : BoolNd).shape ≠ [1] ∧
    TensorArray.initFromSeq [] = .ok ⟨[0], []⟩ ∧
    TensorArray.isna [[]] ⟨0, 0, [0]⟩ = ⟨[], [true]⟩ ∧
    (⟨[], [true]⟩ : BoolNd).shape ≠ [0] := by
  decide

/-- C3, counterexample: the claim says `reduce("sum")` on the rows
`[[1,1],[2,2],[3,3]]` returns a single-row column of length 1.  The code
wraps `np.sum(self._tensor, axis=0)` — the shape-`[2]` tensor `[6,6]` — in
the `TensorArray` constructor, which *adopts* it as the new buffer, so the
result is a column of length 2, not 1. -/
theorem C3_counterexample :
    TensorArray._reduce
        [[Val.num 1, Val.num 1, Val.num 2, Val.num 2, Val.num 3, Val.num 3]]
        ⟨0, 0, [3, 2]⟩ "sum" =
      .ok ([[Val.num 1, Val.num 1, Val.num 2, Val.num 2, Val.num 3, Val.num 3],
            [Val.num 6, Val.num 6]], ⟨1, 0, [2]⟩) ∧
    TensorArray.len ⟨1, 0, [2]⟩ = 2 ∧ ¬ TensorArray.len ⟨1, 0, [2]⟩ = 1 := by
  decide

/-- C3 (amended): on a non-empty column whose buffer has at least two
axes, `reduce("sum")` returns a column that *adopts the elementwise-sum
tensor as its buffer*: its shape is the row shape `col.shape.tail` (so its
length is the first row-shape dimension, not 1) and its cells are the
columnwise sums over all rows; `reduce` with any other name fails with
NotImplemented. -/
theorem C3_reduce_sum_adopts_sum_tensor (h : Heap) (col : NdHandle)
    (name : String) (hdim : 1 < col.shape.length) :
    TensorArray._reduce h col "sum" =
      .ok (h ++ [(np_sum_axis0 (readH h col)).data],
           ⟨h.length, 0, col.shape.tail⟩) ∧
    TensorArray.len (⟨h.length, 0, col.shape.tail⟩ : NdHandle) =
      col.shape.tail.headD 0 ∧
    (name ≠ "sum" → TensorArray._reduce h col name = .error Err.notImplemented) := by
  refine ⟨?_, rfl, ?_⟩
  · unfold TensorArray._reduce
    rw [if_pos rfl, if_neg (by omega)]
    rfl
  · intro hn
    unfold TensorArray._reduce
    rw [if_neg hn]

/-- Witness for C3: the amended statement instantiated on the spec's own
`[[1,1],[2,2],[3,3]]` example, and the rejection of the name `"mean"`. -/
theorem C3_reduce_witness :
    1 < ([3, 2] : List Nat).length ∧
    TensorArray._reduce
        [[Val.num 1, Val.num 1, Val.num 2, Val.num 2, Val.num 3, Val.num 3]]
        ⟨0, 0, [3, 2]⟩ "sum" =
      .ok ([[Val.num 1, Val.num 1, Val.num 2, Val.num 2, Val.num 3, Val.num 3],
            [Val.num 6, Val.num 6]], ⟨1, 0, [2]⟩) ∧
    TensorArray._reduce
        [[Val.num 1, Val.num 1, Val.num 2, Val.num 2, Val.num 3, Val.num 3]]
        ⟨0, 0, [3, 2]⟩ "mean" = .error Err.notImplemented := by
  refine ⟨by decide, ?_, ?_⟩
  · exact ((C3_reduce_sum_adopts_sum_tensor
      [[Val.num 1, Val.num 1, Val.num 2, Val.num 2, Val.num 3, Val.num 3]]
      ⟨0, 0, [3, 2]⟩ "mean" (by decide)).1).trans (by decide)
  · exact (C3_reduce_sum_adopts_sum_tensor
      [[Val.num 1, Val.num 1, Val.num 2, Val.num 2, Val.num 3, Val.num 3]]
      ⟨0, 0, [3, 2]⟩ "mean" (by decide)).2.2 (by decide)

/-- C4: `take` with `allow_fill=True` first validates all indices
(propagating the validator's error untouched when it rejects), then
allocates a fresh column of shape `[len(indices), rowShape...]` in which
slot `i` holds the source row at `indices[i]` when that index is
non-negative and a row filled with the fill value — NaN when none is
supplied — when it is negative. -/
theorem C4_take_allow_fill (h : Heap) (col : NdHandle) (idxs : List Int)
    (fv : Option Val) :
    (validate_indices idxs (col.shape.headD 0) = .ok () →
      TensorArray.take h col idxs true fv =
        .ok (h ++ [(idxs.map (fun idx =>
                if 0 ≤ idx then rowSlice (readH h col) idx.toNat
                else List.replicate col.shape.tail.prod (fv.getD Val.nan))).flatten],
             ⟨h.length, 0, idxs.length :: col.shape.tail⟩)) ∧
    (∀ e, validate_indices idxs (col.shape.headD 0) = .error e →
      TensorArray.take h col idxs true fv = .error e) := by
  constructor
  · intro hv
    unfold TensorArray.take
    rw [if_pos rfl, hv]
    rfl
  · intro e he
    unfold TensorArray.take
    rw [if_pos rfl, he]

/-- Witness for C4: the spec's example `take([2,-1,0], allow_fill=True,
fill_value=0)` on the rows `A=[1,2]`, `B=[3,4]`, `C=[5,6]` validates and
returns `[C, [0,0], A]` in a fresh buffer. -/
theorem C4_take_allow_fill_witness :
    validate_indices [2, -1, 0] 3 = .ok () ∧
    TensorArray.take
        [[Val.num 1, Val.num 2, Val.num 3, Val.num 4, Val.num 5, Val.num 6]]
        ⟨0, 0, [3, 2]⟩ [2, -1, 0] true (some (Val.num 0)) =
      .ok ([[Val.num 1, Val.num 2, Val.num 3, Val.num 4, Val.num 5, Val.num 6],
            [Val.num 5, Val.num 6, Val.num 0, Val.num 0, Val.num 1, Val.num 2]],
           ⟨1, 0, [3, 2]⟩) ∧
    TensorArray.take [[Val.num 1, Val.num 2]] ⟨0, 0, [1, 2]⟩ [-2] true none =
      .error Err.valueError := by
  refine ⟨by decide, ?_, ?_⟩
  · exact ((C4_take_allow_fill
      [[Val.num 1, Val.num 2, Val.num 3, Val.num 4, Val.num 5, Val.num 6]]
      ⟨0, 0, [3, 2]⟩ [2, -1, 0] (some (Val.num 0))).1 (by decide)).trans (by decide)
  · exact (C4_take_allow_fill [[Val.num 1, Val.num 2]] ⟨0, 0, [1, 2]⟩ [-2]
      none).2 Err.valueError (by decide)

/-- C5, counterexample: the claim says `take` with `allow_fill=False`
fails with an index error whenever an entry lies outside `[0, n)`.  But the
gather is `self._tensor.take(indices, axis=0)`, and numpy accepts negative
indices in `[-n, 0)` Python-style: on the three rows `A=[1,2]`, `B=[3,4]`,
`C=[5,6]`, `take([-1], allow_fill=False)` returns `[C]` instead of
raising. -/
theorem C5_counterexample :
    TensorArray.take
        [[Val.num 1, Val.num 2, Val.num 3, Val.num 4, Val.num 5, Val.num 6]]
        ⟨0, 0, [3, 2]⟩ [-1] false none =
      .ok ([[Val.num 1, Val.num 2, Val.num 3, Val.num 4, Val.num 5, Val.num 6],
            [Val.num 5, Val.num 6]], ⟨1, 0, [1, 2]⟩) ∧
    TensorArray.take
        [[Val.num 1, Val.num 2, Val.num 3, Val.num 4, Val.num 5, Val.num 6]]
        ⟨0, 0, [3, 2]⟩ [-1] false none ≠ .error Err.indexError := by
  decide

/-- C5 (amended): `take` with `allow_fill=False` is numpy's plain
gather: when every entry lies in `[-n, n)` it returns a fresh column whose
row `i` is the source row at `indices[i]` (entries in `[0, n)` taken as
written, negative entries wrapping Python-style to `n + indices[i]` — they
are neither fill markers nor errors), and it fails with IndexError exactly
when some entry falls outside `[-n, n)`. -/
theorem C5_take_no_fill_wraps (h : Heap) (col : NdHandle) (idxs : List Int)
    (fv : Option Val) :
    ((∀ i ∈ idxs, -((col.shape.headD 0 : Nat) : Int) ≤ i ∧
        i < ((col.shape.headD 0 : Nat) : Int)) →
      TensorArray.take h col idxs false fv =
        .ok (h ++ [(idxs.map (fun i =>
               rowSlice (readH h col) (resolveIdx (col.shape.headD 0) i))).flatten],
             ⟨h.length, 0, idxs.length :: col.shape.tail⟩)) ∧
    ((∃ i ∈ idxs, i < -((col.shape.headD 0 : Nat) : Int) ∨
        ((col.shape.headD 0 : Nat) : Int) ≤ i) →
      TensorArray.take h col idxs false fv = .error Err.indexError) := by
  constructor
  · intro hin
    have hall : (idxs.all fun i =>
        decide (-((col.shape.headD 0 : Nat) : Int) ≤ i) &&
        decide (i < ((col.shape.headD 0 : Nat) : Int))) = true := by
      rw [List.all_eq_true]
      intro i hi
      simp only [Bool.and_eq_true, decide_eq_true_eq]
      exact hin i hi
    unfold TensorArray.take
    rw [if_neg Bool.false_ne_true, if_pos hall]
    rfl
  · intro hex
    have hall : ¬ (idxs.all fun i =>
        decide (-((col.shape.headD 0 : Nat) : Int) ≤ i) &&
        decide (i < ((col.shape.headD 0 : Nat) : Int))) = true := by
      rw [List.all_eq_true]
      intro hc
      obtain ⟨i, hi, hbad⟩ := hex
      have := hc i hi
      simp only [Bool.and_eq_true, decide_eq_true_eq] at this
      omega
    unfold TensorArray.take
    rw [if_neg Bool.false_ne_true, if_neg hall]

/-- Witness for C5 (amended): on the three rows `A=[1,2]`, `B=[3,4]`,
`C=[5,6]`, `take([2,0,-3], allow_fill=False)` gathers `[C, A, A]`, and
`take([3])` raises IndexError. -/
theorem C5_take_no_fill_witness :
    TensorArray.take
        [[Val.num 1, Val.num 2, Val.num 3, Val.num 4, Val.num 5, Val.num 6]]
        ⟨0, 0, [3, 2]⟩ [2, 0, -3] false none =
      .ok ([[Val.num 1, Val.num 2, Val.num 3, Val.num 4, Val.num 5, Val.num 6],
            [Val.num 5, Val.num 6, Val.num 1, Val.num 2, Val.num 1, Val.num 2]],
           ⟨1, 0, [3, 2]⟩) ∧
    TensorArray.take
        [[Val.num 1, Val.num 2, Val.num 3, Val.num 4, Val.num 5, Val.num 6]]
        ⟨0, 0, [3, 2]⟩ [3] false none = .error Err.indexError := by
  constructor
  · exact ((C5_take_no_fill_wraps
      [[Val.num 1, Val.num 2, Val.num 3, Val.num 4, Val.num 5, Val.num 6]]
      ⟨0, 0, [3, 2]⟩ [2, 0, -3] none).1 (by decide)).trans (by decide)
  · exact (C5_take_no_fill_wraps
      [[Val.num 1, Val.num 2, Val.num 3, Val.num 4, Val.num 5, Val.num 6]]
      ⟨0, 0, [3, 2]⟩ [3] none).2 ⟨3, by decide, by decide⟩

/-- C6: constructing a column from a sequence two of whose items
coerce to tensors of different shapes always fails with the shape-mismatch
error (numpy's `np.stack` refusal), and every successfully constructed
column has a buffer of shape `length :: s` for a single row shape `s` — no
column with mixed row shapes is ever produced. -/
theorem C6_mixed_shapes_rejected (vals : List SeqItem) (a b : SeqItem)
    (ha : a ∈ vals) (hb : b ∈ vals)
    (hab : (coerceItem a).shape ≠ (coerceItem b).shape) :
    TensorArray.initFromSeq vals = .error Err.shapeMismatch ∧
    ∀ (ws : List SeqItem) (res : NdVal), TensorArray.initFromSeq ws = .ok res →
      ∃ s, res.shape = ws.length :: s := by
  constructor
  · rcases vals with _ | ⟨v, rest⟩
    · cases ha
    · unfold TensorArray.initFromSeq
      rw [if_neg (by simp)]
      simp only [List.map_cons]
      rw [np_stack_cons, if_neg]
      intro hall
      rw [List.all_eq_true] at hall
      have key : ∀ x ∈ v :: rest, (coerceItem x).shape = (coerceItem v).shape := by
        intro x hx
        rcases List.mem_cons.mp hx with rfl | hx'
        · rfl
        · have hmem : coerceItem x ∈ rest.map coerceItem :=
            List.mem_map_of_mem _ hx'
          have := hall _ hmem
          simpa using this
      exact hab ((key a ha).trans (key b hb).symm)
  · intro ws res hok
    unfold TensorArray.initFromSeq at hok
    split at hok
    · rename_i hlen
      cases hok
      exact ⟨[], by rw [hlen]⟩
    · rename_i hlen
      rcases ws with _ | ⟨w, rest⟩
      · simp at hlen
      · simp only [List.map_cons] at hok
        rw [np_stack_cons] at hok
        by_cases hc : ((rest.map coerceItem).all
            (fun w2 => decide (w2.shape = (coerceItem w).shape))) = true
        · rw [if_pos hc] at hok
          cases hok
          exact ⟨(coerceItem w).shape, by simp⟩
        · rw [if_neg hc] at hok
          cases hok

/-- Witness for C6: a length-2 row next to a length-1 row is rejected with
the shape-mismatch error, and a successful two-row construction carries one
common row shape. -/
theorem C6_mixed_shapes_witness :
    TensorArray.initFromSeq [SeqItem.nd ⟨[2], [Val.num 1, Val.num 2]⟩,
        SeqItem.nd ⟨[1], [Val.num 3]⟩] = .error Err.shapeMismatch ∧
    TensorArray.initFromSeq [SeqItem.nd ⟨[2], [Val.num 1, Val.num 2]⟩,
        SeqItem.nd ⟨[2], [Val.num 3, Val.num 4]⟩] =
      .ok ⟨[2, 2], [Val.num 1, Val.num 2, Val.num 3, Val.num 4]⟩ := by
  constructor
  · exact (C6_mixed_shapes_rejected
      [SeqItem.nd ⟨[2], [Val.num 1, Val.num 2]⟩, SeqItem.nd ⟨[1], [Val.num 3]⟩]
      (SeqItem.nd ⟨[2], [Val.num 1, Val.num 2]⟩) (SeqItem.nd ⟨[1], [Val.num 3]⟩)
      (by decide) (by decide) (by decide)).1
  · decide

/-- C10: integer indexing with a negative position `-n ≤ i < 0` does
not fail: `self._tensor[item]` resolves it Python-style, so `col[i]`
returns a `TensorElement` (row view) onto the row at position `n + i`, and
reading that view yields exactly that source row's cells. -/
theorem C10_negative_int_indexing (h : Heap) (col : NdHandle) (i : Int)
    (hlo : -((col.shape.headD 0 : Nat) : Int) ≤ i) (hhi : i < 0) :
    TensorArray.getitem h col (Key.int i) =
      .ok (h, .elem ⟨col.buf,
            col.off + (((col.shape.headD 0 : Nat) : Int) + i).toNat *
              col.shape.tail.prod, col.shape.tail⟩) ∧
    readH h ⟨col.buf,
        col.off + (((col.shape.headD 0 : Nat) : Int) + i).toNat *
          col.shape.tail.prod, col.shape.tail⟩ =
      ⟨col.shape.tail,
       rowSlice (readH h col) ((((col.shape.headD 0 : Nat) : Int) + i).toNat)⟩ := by
  constructor
  · unfold TensorArray.getitem
    dsimp only
    rw [if_pos (And.intro hlo (by omega))]
    unfold resolveIdx
    rw [if_pos hhi]
  · rcases hs : col.shape with _ | ⟨n', t⟩
    · exfalso
      rw [hs] at hlo
      simp at hlo
      omega
    · rw [hs] at hlo
      simp only [List.headD_cons, List.tail_cons] at hlo ⊢
      simp only [readH, rowSlice, hs, List.headD_cons, List.tail_cons,
        List.prod_cons]
      congr 1
      exact (take_drop_row (h.getD col.buf []) col.off t.prod n'
        (((n' : Nat) : Int) + i).toNat (by omega)).symm

/-- Witness for C10: on the two 2-cell rows `[1,2]`, `[3,4]`, indexing with
`-1` returns a row view of row `1` whose cells read `[3,4]`. -/
theorem C10_negative_int_indexing_witness :
    (-(((2 : Nat) : Int)) ≤ -1 ∧ (-1 : Int) < 0) ∧
    TensorArray.getitem [[Val.num 1, Val.num 2, Val.num 3, Val.num 4]]
        ⟨0, 0, [2, 2]⟩ (Key.int (-1)) =
      .ok ([[Val.num 1, Val.num 2, Val.num 3, Val.num 4]],
           .elem ⟨0, 2, [2]⟩) ∧
    readH [[Val.num 1, Val.num 2, Val.num 3, Val.num 4]] ⟨0, 2, [2]⟩ =
      ⟨[2], [Val.num 3, Val.num 4]⟩ := by
  refine ⟨by decide, ?_, ?_⟩
  · exact ((C10_negative_int_indexing
      [[Val.num 1, Val.num 2, Val.num 3, Val.num 4]] ⟨0, 0, [2, 2]⟩ (-1)
      (by decide) (by decide)).1).trans (by decide)
  · refine ((C10_negative_int_indexing
      [[Val.num 1, Val.num 2, Val.num 3, Val.num 4]] ⟨0, 0, [2, 2]⟩ (-1)
      (by decide) (by decide)).2).trans ?_
    decide

/-- `np_binop` against a 0-d operand (a numpy scalar, shape `[]`) broadcasts
the scalar across every cell. -/
theorem np_binop_scalar (op : Val → Val → Val) (a : NdVal) (c : Val)
    (hne : a.shape ≠ []) (hlen : a.data.length = a.shape.prod) :
    np_binop op a ⟨[], [c]⟩ = .ok ⟨a.shape, a.data.map (fun x => op x c)⟩ := by
  unfold np_binop
  rw [if_neg (by simpa using hne),
    if_pos (show ((⟨[], [c]⟩ : NdVal).shape.isSuffixOf a.shape) = true by
      simp [List.isSuffixOf, List.nil_suffix])]
  refine congrArg Except.ok ?_
  refine congrArg (NdVal.mk a.shape) ?_
  apply List.ext_getElem
  · simp [hlen]
  · intro i h1 h2
    simp only [List.getElem_map, List.getElem_range]
    have hi : i < a.data.length := by simpa using h2
    rw [List.getD_eq_getElem?_getD, List.getElem?_eq_getElem hi]
    simp [Nat.mod_one]

/-- C7: each synthesized binary operator extracts `self`'s raw buffer,
extracts `other`'s raw buffer when `other` is a column or a row view and
uses `other` as-is otherwise, applies the elementwise numeric operator, and
wraps the result in the same concrete type as `self`: on equal-shape column
operands the result is the fresh cell-by-cell combination, on a scalar
operand the scalar is broadcast across every cell of every row, a row-view
`self` wraps its result as a row view, and neither operand's buffer is
mutated — the heap is only extended by the result. -/
theorem C7_binop_dispatch (op : Val → Val → Val) (h : Heap) (a b : NdHandle)
    (c : Val) (w : NdVal) (hwa : Wf h a) (hsh : a.shape = b.shape) :
    TensorOpsMixin._binop .arr op h a (.arr b) =
      .ok (h ++ [List.zipWith op (readH h a).data (readH h b).data],
           .arr ⟨h.length, 0, a.shape⟩) ∧
    TensorOpsMixin._binop .arr op h a (.elem b) =
      .ok (h ++ [List.zipWith op (readH h a).data (readH h b).data],
           .arr ⟨h.length, 0, a.shape⟩) ∧
    TensorOpsMixin._binop .arr op h a (.scalar c) =
      .ok (h ++ [(readH h a).data.map (fun x => op x c)],
           .arr ⟨h.length, 0, a.shape⟩) ∧
    TensorOpsMixin._binop .elem op h a (.scalar c) =
      .ok (h ++ [(readH h a).data.map (fun x => op x c)],
           .elem ⟨h.length, 0, a.shape⟩) ∧
    (∀ res h', TensorOpsMixin._binop .arr op h a (.raw w) = .ok (h', res) →
      (∃ hd, res = .arr hd) ∧ ∃ d, h' = h ++ [d]) ∧
    (∀ res h', TensorOpsMixin._binop .elem op h a (.raw w) = .ok (h', res) →
      (∃ hd, res = .elem hd) ∧ ∃ d, h' = h ++ [d]) := by
  have hne : (readH h a).shape ≠ ([] : List Nat) := hwa.2.2
  have heq : (readH h a).shape = (readH h b).shape := hsh
  have hscalar := np_binop_scalar op (readH h a) c hne (length_readH h a hwa)
  refine ⟨?_, ?_, ?_, ?_, ?_, ?_⟩
  · unfold TensorOpsMixin._binop
    dsimp only
    unfold np_binop
    rw [if_pos heq]
    rfl
  · unfold TensorOpsMixin._binop
    dsimp only
    unfold np_binop
    rw [if_pos heq]
    rfl
  · unfold TensorOpsMixin._binop
    dsimp only
    rw [hscalar]
    rfl
  · unfold TensorOpsMixin._binop
    dsimp only
    rw [hscalar]
    rfl
  · intro res h' hok
    unfold TensorOpsMixin._binop at hok
    dsimp only at hok
    cases hnp : np_binop op (readH h a) w with
    | error e => rw [hnp] at hok; cases hok
    | ok r =>
        rw [hnp] at hok
        cases hok
        exact ⟨⟨_, rfl⟩, _, rfl⟩
  · intro res h' hok
    unfold TensorOpsMixin._binop at hok
    dsimp only at hok
    cases hnp : np_binop op (readH h a) w with
    | error e => rw [hnp] at hok; cases hok
    | ok r =>
        rw [hnp] at hok
        cases hok
        exact ⟨⟨_, rfl⟩, _, rfl⟩

/-- Witness for C7: with `op = Val.add`, adding the one-cell-row columns
`[[1],[2]]` and `[[10],[20]]` gives the fresh column `[[11],[22]]`, and
adding the scalar `10` to `[[1],[2]]` gives `[[11],[12]]`. -/
theorem C7_binop_dispatch_witness :
    Wf [[Val.num 1, Val.num 2], [Val.num 10, Val.num 20]] ⟨0, 0, [2, 1]⟩ ∧
    TensorOpsMixin._binop .arr Val.add
        [[Val.num 1, Val.num 2], [Val.num 10, Val.num 20]]
        ⟨0, 0, [2, 1]⟩ (Operand.arr ⟨1, 0, [2, 1]⟩) =
      .ok ([[Val.num 1, Val.num 2], [Val.num 10, Val.num 20],
            [Val.num 11, Val.num 22]], .arr ⟨2, 0, [2, 1]⟩) ∧
    TensorOpsMixin._binop .arr Val.add
        [[Val.num 1, Val.num 2], [Val.num 10, Val.num 20]]
        ⟨0, 0, [2, 1]⟩ (Operand.scalar (Val.num 10)) =
      .ok ([[Val.num 1, Val.num 2], [Val.num 10, Val.num 20],
            [Val.num 11, Val.num 12]], .arr ⟨2, 0, [2, 1]⟩) := by
  refine ⟨by decide, ?_, ?_⟩
  · exact ((C7_binop_dispatch Val.add
      [[Val.num 1, Val.num 2], [Val.num 10, Val.num 20]]
      ⟨0, 0, [2, 1]⟩ ⟨1, 0, [2, 1]⟩ (Val.num 10) ⟨[], []⟩
      (by decide) rfl).1).trans (by decide)
  · exact ((C7_binop_dispatch Val.add
      [[Val.num 1, Val.num 2], [Val.num 10, Val.num 20]]
      ⟨0, 0, [2, 1]⟩ ⟨1, 0, [2, 1]⟩ (Val.num 10) ⟨[], []⟩
      (by decide) rfl).2.2.1).trans (by decide)

/-- After the NaN-fill assignment writes the rows `sel` of a buffer window,
every cell of each written row reads NaN. -/
theorem assignRows_nan_row (b : List Val) (off rowsz : Nat) (sel : List Nat)
    (n i : Nat) (hi : i ∈ sel) (hisel : ∀ j ∈ sel, j < n)
    (hlen : off + n * rowsz ≤ b.length) (t : Nat) (ht : t < rowsz) :
    (assignRows b off rowsz
        (sel.map (fun j => (j, List.replicate rowsz Val.nan)))).getD
      (off + i * rowsz + t) Val.nan = Val.nan := by
  have hin : i < n := hisel i hi
  have hceil : i * rowsz + rowsz ≤ n * rowsz := by
    calc i * rowsz + rowsz = (i + 1) * rowsz := by ring
    _ ≤ n * rowsz := Nat.mul_le_mul_right _ hin
  have hp : off + i * rowsz + t < b.length := by omega
  unfold assignRows
  rw [getD_range_map _ _ _ _ hp]
  cases hlw : lastWrite off rowsz
      (sel.map fun j => (j, List.replicate rowsz Val.nan))
      (off + i * rowsz + t) with
  | none =>
      exfalso
      unfold lastWrite at hlw
      rw [List.findSome?_eq_none_iff] at hlw
      have hmem : (i, List.replicate rowsz Val.nan) ∈
          (sel.map fun j => (j, List.replicate rowsz Val.nan)).reverse := by
        rw [List.mem_reverse]
        exact List.mem_map_of_mem _ hi
      have hnone := hlw _ hmem
      rw [if_pos (by dsimp only; omega)] at hnone
      cases hnone
  | some v =>
      unfold lastWrite at hlw
      obtain ⟨q, hq, hfq⟩ := List.exists_of_findSome?_eq_some hlw
      rw [List.mem_reverse] at hq
      obtain ⟨j, hj, rfl⟩ := List.mem_map.mp hq
      split at hfq
      · injection hfq with hv
        have hvn : v = Val.nan := by
          rw [← hv]
          exact getD_replicate_const ..
        simp [hvn]
      · cases hfq

/-- On a column of 1-D rows (`shape = [nn, dd]`), entry `i` of `isna` is
"is row `i` all NaN". -/
theorem isna_getD_row (h : Heap) (col : NdHandle) (nn dd i : Nat)
    (hs : col.shape = [nn, dd]) (hin : i < nn) :
    (TensorArray.isna h col).data.getD i false =
      (rowSlice (readH h col) i).all Val.isNan := by
  simp only [TensorArray.isna, np_all_isnan_last, chunksOf, readH, rowSlice,
    hs, List.map_map]
  rw [getD_range_map _ _ _ _ (by simpa using hin)]
  simp [Function.comp]

/-- C8, counterexample: on the column with rows `[NaN]`, `[1]`,
assigning `None` at row `1` makes row `1` all-NaN without raising — but
`isna` afterwards also reports true at the untargeted row `0`, which was
already all-NaN, so `isna` is not true for *exactly* the targeted rows. -/
theorem C8_counterexample :
    TensorArray.setitem [[Val.nan, Val.num 1]] ⟨0, 0, [2, 1]⟩ (Key.int 1)
        SetVal.pyNone = .ok [[Val.nan, Val.nan]] ∧
    resolveKey 2 (Key.int 1) = .ok [1] ∧
    (TensorArray.isna [[Val.nan, Val.nan]] ⟨0, 0, [2, 1]⟩).data.getD 0 false =
      true ∧
    (0 : Nat) ∉ [1] := by decide

/-- C8 (amended): assigning `None` or an empty sequence at any valid
key does not raise: the source's dedicated branch overwrites every targeted
row with NaN cells in place.  For a column of one-dimensional rows
(`shape = [n, d]` — for higher-dimensional rows `isna` does not return
per-row booleans, see C2) `isna` afterwards reports true at every targeted
row; it can also be true at untargeted rows that already were all-NaN, so
"exactly those rows" does not hold. -/
theorem C8_empty_assignment_nan_fill (h : Heap) (col : NdHandle) (k : Key)
    (sel : List Nat) (i : Nat) (hwf : Wf h col)
    (hk : resolveKey (col.shape.headD 0) k = .ok sel) (hi : i ∈ sel) :
    (TensorArray.setitem h col k SetVal.pyNone =
       .ok (h.set col.buf (assignRows (h.getD col.buf []) col.off
             col.shape.tail.prod
             (sel.map (fun j => (j, List.replicate col.shape.tail.prod Val.nan))))) ∧
     TensorArray.setitem h col k SetVal.emptySeq =
       .ok (h.set col.buf (assignRows (h.getD col.buf []) col.off
             col.shape.tail.prod
             (sel.map (fun j => (j, List.replicate col.shape.tail.prod Val.nan)))))) ∧
    ∀ h'', TensorArray.setitem h col k SetVal.pyNone = .ok h'' →
      rowSlice (readH h'' col) i =
        List.replicate col.shape.tail.prod Val.nan ∧
      (col.shape.length = 2 →
        (TensorArray.isna h'' col).data.getD i false = true) := by
  have hC1 : TensorArray.setitem h col k SetVal.pyNone =
      .ok (h.set col.buf (assignRows (h.getD col.buf []) col.off
            col.shape.tail.prod
            (sel.map (fun j => (j, List.replicate col.shape.tail.prod Val.nan))))) := by
    unfold TensorArray.setitem
    dsimp only
    rw [hk]
  have hC2 : TensorArray.setitem h col k SetVal.emptySeq =
      .ok (h.set col.buf (assignRows (h.getD col.buf []) col.off
            col.shape.tail.prod
            (sel.map (fun j => (j, List.replicate col.shape.tail.prod Val.nan))))) := by
    unfold TensorArray.setitem
    dsimp only
    rw [hk]
  refine ⟨⟨hC1, hC2⟩, ?_⟩
  intro h'' hok
  rw [hC1] at hok
  injection hok with hok
  subst hok
  have hbuflt : col.buf < h.length := hwf.1
  have hsne : col.shape ≠ [] := hwf.2.2
  have hprod : col.shape.prod = col.shape.headD 0 * col.shape.tail.prod := by
    conv_lhs => rw [shape_cons col.shape hsne]
    exact List.prod_cons
  have hin : i < col.shape.headD 0 := resolveKey_lt _ _ _ hk i hi
  have hbl : col.off + col.shape.headD 0 * col.shape.tail.prod ≤
      (h.getD col.buf []).length := by
    have := hwf.2.1
    omega
  have hceil : i * col.shape.tail.prod + col.shape.tail.prod ≤
      col.shape.headD 0 * col.shape.tail.prod := by
    calc i * col.shape.tail.prod + col.shape.tail.prod
        = (i + 1) * col.shape.tail.prod := by ring
    _ ≤ col.shape.headD 0 * col.shape.tail.prod :=
        Nat.mul_le_mul_right _ hin
  have hnblen : (assignRows (h.getD col.buf []) col.off col.shape.tail.prod
      (sel.map (fun j => (j, List.replicate col.shape.tail.prod Val.nan)))).length =
      (h.getD col.buf []).length := assignRows_length ..
  have hrow : rowSlice (readH (h.set col.buf
      (assignRows (h.getD col.buf []) col.off col.shape.tail.prod
        (sel.map (fun j => (j, List.replicate col.shape.tail.prod Val.nan))))) col) i =
      List.replicate col.shape.tail.prod Val.nan := by
    simp only [rowSlice, readH, getD_set_self h col.buf _ [] hbuflt]
    rw [hprod, take_drop_row _ col.off col.shape.tail.prod
      (col.shape.headD 0) i hin]
    apply List.ext_getElem
    · simp only [List.length_take, List.length_drop, List.length_replicate,
        hnblen]
      omega
    · intro t h1 h2
      have ht : t < col.shape.tail.prod := by simpa using h2
      rw [← List.getD_eq_getElem _ Val.nan h1, ← List.getD_eq_getElem _ Val.nan h2,
        getD_take_lt _ _ _ _ ht, getD_drop_add, getD_replicate_const,
        show col.off + i * col.shape.tail.prod + t =
          col.off + i * col.shape.tail.prod + t from rfl]
      exact assignRows_nan_row (h.getD col.buf []) col.off col.shape.tail.prod
        sel (col.shape.headD 0) i hi (resolveKey_lt _ _ _ hk) hbl t ht
  refine ⟨hrow, ?_⟩
  intro hL
  obtain ⟨nn, dd, hnd⟩ := List.length_eq_two.mp hL
  have hin2 : i < nn := by
    have := hin
    rw [hnd] at this
    simpa using this
  rw [isna_getD_row _ col nn dd i hnd hin2, hrow]
  exact all_isNan_replicate _

/-- Witness for C8 (amended): on the column with rows `[1]`, `[2]`,
assigning `None` through the slice `0:2` succeeds and makes both rows
all-NaN, and `isna` reports true at row `0`. -/
theorem C8_empty_assignment_witness :
    Wf [[Val.num 1, Val.num 2]] ⟨0, 0, [2, 1]⟩ ∧
    resolveKey 2 (Key.slice 0 2) = .ok [0, 1] ∧
    TensorArray.setitem [[Val.num 1, Val.num 2]] ⟨0, 0, [2, 1]⟩
        (Key.slice 0 2) SetVal.pyNone = .ok [[Val.nan, Val.nan]] ∧
    rowSlice (readH [[Val.nan, Val.nan]] ⟨0, 0, [2, 1]⟩) 0 = [Val.nan] ∧
    (TensorArray.isna [[Val.nan, Val.nan]] ⟨0, 0, [2, 1]⟩).data.getD 0 false =
      true := by
  have hmain := C8_empty_assignment_nan_fill [[Val.num 1, Val.num 2]]
    ⟨0, 0, [2, 1]⟩ (Key.slice 0 2) [0, 1] 0 (by decide) (by decide) (by decide)
  have hconc := hmain.2 [[Val.nan, Val.nan]] (by decide)
  exact ⟨by decide, by decide, by decide, hconc.1, hconc.2 (by decide)⟩

/-- C9: `copy()` (`self._tensor.copy()` adopted by the constructor)
returns a column reading the same content as the source but backed by a
different, freshly allocated buffer: indexed assignment into the copy never
changes what the source reads, and indexed assignment into the source never
changes what the copy reads. -/
theorem C9_copy_independent (h : Heap) (col : NdHandle) (hwf : Wf h col) :
    readH (TensorArray.copy h col).1 (TensorArray.copy h col).2 =
      readH h col ∧
    (TensorArray.copy h col).2.buf ≠ col.buf ∧
    (∀ k v h'', TensorArray.setitem (TensorArray.copy h col).1
        (TensorArray.copy h col).2 k v = .ok h'' →
      readH h'' col = readH h col) ∧
    (∀ k v h'', TensorArray.setitem (TensorArray.copy h col).1 col k v =
        .ok h'' →
      readH h'' (TensorArray.copy h col).2 =
        readH (TensorArray.copy h col).1 (TensorArray.copy h col).2) := by
  have hbuf : col.buf < h.length := hwf.1
  refine ⟨?_, ?_, ?_, ?_⟩
  · exact readH_alloc_self h (readH h col) (length_readH h col hwf)
  · intro hc
    have he : (TensorArray.copy h col).2.buf = h.length := rfl
    omega
  · intro k v h'' hok
    obtain ⟨nb, rfl⟩ := setitem_ok_set _ _ _ _ _ hok
    have h1 : (TensorArray.copy h col).2.buf ≠ col.buf := by
      have he : (TensorArray.copy h col).2.buf = h.length := rfl
      omega
    rw [readH_set_ne _ col _ nb h1]
    exact readH_append_one h col _ hbuf
  · intro k v h'' hok
    obtain ⟨nb, rfl⟩ := setitem_ok_set _ _ _ _ _ hok
    have h1 : col.buf ≠ (TensorArray.copy h col).2.buf := by
      have he : (TensorArray.copy h col).2.buf = h.length := rfl
      omega
    exact readH_set_ne _ _ _ _ h1

/-- Witness for C9: copying the column with rows `[1]`, `[2]`, then
assigning `9` into row `0` of the copy, leaves the source reading
`[1, 2]`. -/
theorem C9_copy_independent_witness :
    Wf [[Val.num 1, Val.num 2]] ⟨0, 0, [2, 1]⟩ ∧
    readH (TensorArray.copy [[Val.num 1, Val.num 2]] ⟨0, 0, [2, 1]⟩).1
        (TensorArray.copy [[Val.num 1, Val.num 2]] ⟨0, 0, [2, 1]⟩).2 =
      readH [[Val.num 1, Val.num 2]] ⟨0, 0, [2, 1]⟩ ∧
    TensorArray.setitem
        (TensorArray.copy [[Val.num 1, Val.num 2]] ⟨0, 0, [2, 1]⟩).1
        (TensorArray.copy [[Val.num 1, Val.num 2]] ⟨0, 0, [2, 1]⟩).2
        (Key.int 0) (SetVal.scalar (Val.num 9)) =
      .ok [[Val.num 1, Val.num 2], [Val.num 9, Val.num 2]] ∧
    readH [[Val.num 1, Val.num 2], [Val.num 9, Val.num 2]] ⟨0, 0, [2, 1]⟩ =
      readH [[Val.num 1, Val.num 2]] ⟨0, 0, [2, 1]⟩ := by
  refine ⟨by decide, ?_, by decide, ?_⟩
  · exact (C9_copy_independent [[Val.num 1, Val.num 2]] ⟨0, 0, [2, 1]⟩
      (by decide)).1
  · exact (C9_copy_independent [[Val.num 1, Val.num 2]] ⟨0, 0, [2, 1]⟩
      (by decide)).2.2.1 (Key.int 0) (SetVal.scalar (Val.num 9))
      [[Val.num 1, Val.num 2], [Val.num 9, Val.num 2]] (by decide)

end TensorSpec
